import Mathlib

/-!
Verification of the todo-list application (`src/script.js`).

The program is embedded shallowly:

* a `Task` record mirrors the JS task objects `{id, text, completed}`
  (ids come from `Date.now()`, a natural number of milliseconds);
* the mutable browser state touched by the script — the `todos` array, the
  two input fields, the `localStorage` slot, the rendered list and the
  ambient clock — is collected in an `AppState` record, and every impure
  function of the script becomes a state-to-state function; observable
  side effects (`alert`, `localStorage.setItem`, a full re-render) are
  additionally recorded in an event trace so that frame properties
  ("no write happened") are expressible;
* `JSON.stringify` on a task array is embedded as a concrete printer and
  `JSON.parse` as a concrete recursive-descent parser over `List Char`
  (fuelled; the fuel is an artifact of totality and is always sufficient
  on inputs the program produces).  The parser covers the JSON fragment
  the application exchanges with the store: the compact output of
  `JSON.stringify` (no insignificant whitespace, unsigned integer
  numerals); on that fragment it agrees with the platform parser, and it
  fails exactly where a malformed slot would make `JSON.parse` throw.
-/

namespace TodoApp

/-- A task record, mirroring the object literal built in `addTask`:
`{ id: Date.now(), text: text, completed: false }`. -/
structure Task where
  id : Nat
  text : String
  completed : Bool
deriving DecidableEq, Repr

/-- One rendered `<li>` row: `dataset.id`, the span text, and the two
independent class flags `hidden` and `completed` set by `renderTasks`. -/
structure Row where
  id : Nat
  text : String
  hidden : Bool
  completed : Bool
deriving DecidableEq, Repr

/-- Observable side effects of the script, recorded in order. -/
inductive Eff where
  | alert (msg : String)
  | setSlot (value : List Char)
  | render
deriving DecidableEq, Repr

/-- The browser state the script reads and writes: the module-level `todos`
array, the two text fields, the `localStorage` slot under `STORAGE_KEY`
(`none` = `getItem` returns `null`), the currently rendered list, the
value `Date.now()` would return, and the trace of effects performed. -/
structure AppState where
  todos : List Task
  taskInput : String
  searchInput : String
  storage : Option (List Char)
  view : List Row
  now : Nat
  events : List Eff
deriving DecidableEq, Repr

/-- The storage key used by the script (`const STORAGE_KEY = 'enhancedTodos'`). -/
def STORAGE_KEY : String := "enhancedTodos"

/-- The characters the ECMAScript `String.prototype.trim` strips:
WhiteSpace (tab, VT, FF, space, NBSP, BOM, Unicode space separators)
and LineTerminator (LF, CR, LS, PS). -/
def jsWhitespaceChar (c : Char) : Bool :=
  [9, 10, 11, 12, 13, 32, 0xA0, 0x1680, 0x2028, 0x2029,
    0x202F, 0x205F, 0x3000, 0xFEFF].contains c.toNat
    || (0x2000 ≤ c.toNat && c.toNat ≤ 0x200A)

/-- JS `s.trim()`: drop leading and trailing whitespace. -/
def jsTrim (s : String) : String :=
  String.mk (((s.data.dropWhile jsWhitespaceChar).reverse.dropWhile
    jsWhitespaceChar).reverse)

/-- JS `s.toLowerCase()`, character by character. -/
def jsToLower (s : String) : String :=
  String.mk (s.data.map Char.toLower)

/-- Does `pat` occur at the head of `l`?  (Helper for `includesL`.) -/
def startsWithL : List Char → List Char → Bool
  | [], _ => true
  | _ :: _, [] => false
  | a :: as, b :: bs => (a == b) && startsWithL as bs

/-- JS `hay.includes(pat)`: does `pat` occur as a contiguous substring? -/
def includesL (pat : List Char) : List Char → Bool
  | [] => pat.isEmpty
  | c :: t => startsWithL pat (c :: t) || includesL pat t

/-- JS `hay.includes(pat)` on strings. -/
def jsIncludes (hay pat : String) : Bool :=
  includesL pat.data hay.data

/-! ## The JSON layer: `JSON.stringify` / `JSON.parse` on the data exchanged
with `localStorage`. -/

/-- A JSON value, as produced by `JSON.parse` (numerals restricted to the
unsigned integers the application stores). -/
inductive Json where
  | null
  | bool (b : Bool)
  | num (n : Nat)
  | str (s : String)
  | arr (elems : List Json)
  | obj (fields : List (String × Json))
deriving Repr

/-- Lowercase hex digit for `n < 16`, as emitted in `\u00XX` escapes. -/
def hexDigit (n : Nat) : Char :=
  if n < 10 then Char.ofNat (48 + n) else Char.ofNat (87 + n)

/-- How `JSON.stringify` escapes one character inside a string literal. -/
def escChar (c : Char) : List Char :=
  if c == '"' then ['\\', '"']
  else if c == '\\' then ['\\', '\\']
  else if c == Char.ofNat 8 then ['\\', 'b']
  else if c == '\t' then ['\\', 't']
  else if c == '\n' then ['\\', 'n']
  else if c == Char.ofNat 12 then ['\\', 'f']
  else if c == '\r' then ['\\', 'r']
  else if c.toNat < 32 then
    ['\\', 'u', '0', '0', hexDigit (c.toNat / 16), hexDigit (c.toNat % 16)]
  else [c]

/-- Escape a whole character sequence. -/
def escapeList : List Char → List Char
  | [] => []
  | c :: cs => escChar c ++ escapeList cs

/-- `JSON.stringify` of a string: quotes around the escaped characters. -/
def printStrL (s : List Char) : List Char :=
  '"' :: escapeList s ++ ['"']

/-- Decimal digits of `n`, most significant first (`String(n)` in JS). -/
def natDigits (n : Nat) : List Char :=
  if h : n < 10 then [Nat.digitChar n]
  else natDigits (n / 10) ++ [Nat.digitChar (n % 10)]
decreasing_by exact Nat.div_lt_self (by omega) (by omega)

/-- `JSON.stringify` of a boolean. -/
def printBool : Bool → List Char
  | true => ['t', 'r', 'u', 'e']
  | false => ['f', 'a', 'l', 's', 'e']

/-- `JSON.stringify` of one task object: V8 emits the own properties in
insertion order, exactly `{"id":…,"text":…,"completed":…}` with no
whitespace. -/
def printTask (t : Task) : List Char :=
  '\x7b' :: printStrL "id".data ++ ':' :: natDigits t.id ++
  ',' :: printStrL "text".data ++ ':' :: printStrL t.text.data ++
  ',' :: printStrL "completed".data ++ ':' :: printBool t.completed ++
  ['\x7d']

/-- The tail of a stringified array after its first element: either the
closing bracket or a comma followed by the next element. -/
def printMoreTasks : List Task → List Char
  | [] => [']']
  | t :: ts => ',' :: printTask t ++ printMoreTasks ts

/-- `JSON.stringify(todos)` for a task array. -/
def printTasks : List Task → List Char
  | [] => ['[', ']']
  | t :: ts => '[' :: printTask t ++ printMoreTasks ts

/-- The `JSON.parse` result for the stringified form of one task. -/
def taskToJson (t : Task) : Json :=
  Json.obj [("id", Json.num t.id), ("text", Json.str t.text),
    ("completed", Json.bool t.completed)]

/-- The `JSON.parse` result for the stringified form of a task array. -/
def tasksToJson (ts : List Task) : Json :=
  Json.arr (ts.map taskToJson)

/-- Value of a lone hex digit, as in a `\uXXXX` escape. -/
def hexVal (c : Char) : Option Nat :=
  if 48 ≤ c.toNat ∧ c.toNat ≤ 57 then some (c.toNat - 48)
  else if 97 ≤ c.toNat ∧ c.toNat ≤ 102 then some (c.toNat - 87)
  else if 65 ≤ c.toNat ∧ c.toNat ≤ 70 then some (c.toNat - 55)
  else none

/-- Decoding of the named escapes `\" \\ \/ \b \f \n \r \t`. -/
def escDecode : Char → Option Char
  | '"' => some '"'
  | '\\' => some '\\'
  | '/' => some '/'
  | 'b' => some (Char.ofNat 8)
  | 'f' => some (Char.ofNat 12)
  | 'n' => some '\n'
  | 'r' => some '\r'
  | 't' => some '\t'
  | _ => none

/-- Body of a JSON string literal after the opening quote: unescape up to
the closing quote, rejecting raw control characters as `JSON.parse` does.
Returns the decoded characters and the remaining input. -/
def parseStrBody : List Char → Option (List Char × List Char)
  | [] => none
  | c :: rest =>
    if c == '"' then some ([], rest)
    else if c == '\\' then
      match rest with
      | [] => none
      | e :: rest2 =>
        if e == 'u' then
          match rest2 with
          | h1 :: h2 :: h3 :: h4 :: rest3 =>
            match hexVal h1, hexVal h2, hexVal h3, hexVal h4 with
            | some a, some b, some c2, some d =>
              (parseStrBody rest3).map
                (fun p => (Char.ofNat (((a * 16 + b) * 16 + c2) * 16 + d) :: p.1, p.2))
            | _, _, _, _ => none
          | _ => none
        else
          match escDecode e with
          | some c2 => (parseStrBody rest2).map (fun p => (c2 :: p.1, p.2))
          | none => none
    else if c.toNat < 32 then none
    else (parseStrBody rest).map (fun p => (c :: p.1, p.2))

/-- Numeric value of a digit sequence. -/
def digitsVal (ds : List Char) : Nat :=
  ds.foldl (fun a c => a * 10 + (c.toNat - 48)) 0

/-- A (non-empty) run of decimal digits and its value. -/
def parseNum (cs : List Char) : Option (Nat × List Char) :=
  let ds := cs.takeWhile Char.isDigit
  if ds.isEmpty then none
  else some (digitsVal ds, cs.dropWhile Char.isDigit)

mutual

/-- One JSON value at the head of the input (recursive descent; `fuel`
only enforces totality — every recursive call consumes input first, so
`input length + 1` is always enough fuel). -/
def parseValue : Nat → List Char → Option (Json × List Char)
  | 0, _ => none
  | _ + 1, [] => none
  | fuel + 1, c :: rest =>
    if c.isDigit then
      (parseNum (c :: rest)).map (fun p => (Json.num p.1, p.2))
    else if c == '"' then
      (parseStrBody rest).map (fun p => (Json.str (String.mk p.1), p.2))
    else if c == '[' then
      match rest with
      | [] => none
      | c2 :: r2 =>
        if c2 == ']' then some (Json.arr [], r2)
        else
          match parseValue fuel rest with
          | some (v, r3) =>
            (parseMoreElems fuel r3).map (fun p => (Json.arr (v :: p.1), p.2))
          | none => none
    else if c == '\x7b' then
      match rest with
      | [] => none
      | c2 :: r2 =>
        if c2 == '\x7d' then some (Json.obj [], r2)
        else if c2 == '"' then
          match parseStrBody r2 with
          | some (k, r3) =>
            match r3 with
            | ':' :: r4 =>
              match parseValue fuel r4 with
              | some (v, r5) =>
                (parseMoreFields fuel r5).map
                  (fun p => (Json.obj ((String.mk k, v) :: p.1), p.2))
              | none => none
            | _ => none
          | none => none
        else none
    else if c == 'n' then
      match rest with
      | 'u' :: 'l' :: 'l' :: r2 => some (Json.null, r2)
      | _ => none
    else if c == 't' then
      match rest with
      | 'r' :: 'u' :: 'e' :: r2 => some (Json.bool true, r2)
      | _ => none
    else if c == 'f' then
      match rest with
      | 'a' :: 'l' :: 's' :: 'e' :: r2 => some (Json.bool false, r2)
      | _ => none
    else none

/-- After one array element: a closing bracket or `,` and further
elements. -/
def parseMoreElems : Nat → List Char → Option (List Json × List Char)
  | 0, _ => none
  | _ + 1, [] => none
  | fuel + 1, c :: r =>
    if c == ']' then some ([], r)
    else if c == ',' then
      match parseValue fuel r with
      | some (v, r2) =>
        (parseMoreElems fuel r2).map (fun p => (v :: p.1, p.2))
      | none => none
    else none

/-- After one object member: a closing brace or `,` and further members. -/
def parseMoreFields : Nat → List Char → Option (List (String × Json) × List Char)
  | 0, _ => none
  | _ + 1, [] => none
  | fuel + 1, c :: r =>
    if c == '\x7d' then some ([], r)
    else if c == ',' then
      match r with
      | [] => none
      | c2 :: r2 =>
        if c2 == '"' then
          match parseStrBody r2 with
          | some (k, r3) =>
            match r3 with
            | ':' :: r4 =>
              match parseValue fuel r4 with
              | some (v, r5) =>
                (parseMoreFields fuel r5).map
                  (fun p => ((String.mk k, v) :: p.1, p.2))
              | none => none
            | _ => none
          | none => none
        else none
    else none

end

/-- `JSON.parse`: one value consuming the whole input, otherwise failure
(the platform function throws a `SyntaxError`). -/
def parseJson (cs : List Char) : Option Json :=
  match parseValue (cs.length + 1) cs with
  | some (j, []) => some j
  | _ => none

/-! ## The persistence adapter. -/

/-- `saveTasks`'s payload: `JSON.stringify(todos)`. -/
def saveTasksString (ts : List Task) : List Char :=
  printTasks ts

/-- `loadTasks`, as a function of the stored slot (`localStorage.getItem`
returns `null` ↦ `none`, or the stored string).  The script runs
`JSON.parse` with no `try`/`catch`, so a parse failure is an uncaught
exception (`Except.error`); note that the guard `if (storedTodos)` also
treats the empty string as absent.  On success the parsed value — whatever
its shape — is assigned to `todos` verbatim. -/
def loadTasks (slot : Option (List Char)) : Except Unit Json :=
  match slot with
  | none => Except.ok (Json.arr [])
  | some s =>
    if s.isEmpty then Except.ok (Json.arr [])
    else
      match parseJson s with
      | some j => Except.ok j
      | none => Except.error ()

/-- Typed reading of a stored value as one task object (used to state what
"a collection equal to `C`" means for the round-trip property). -/
def jsonToTask : Json → Option Task
  | Json.obj [("id", Json.num n), ("text", Json.str s), ("completed", Json.bool b)] =>
    some ⟨n, s, b⟩
  | _ => none

/-- Typed reading of a list of stored task objects. -/
def jsonToTaskList : List Json → Option (List Task)
  | [] => some []
  | j :: js =>
    match jsonToTask j, jsonToTaskList js with
    | some t, some ts => some (t :: ts)
    | _, _ => none

/-- Typed reading of a stored value as a task array. -/
def jsonToTasks : Json → Option (List Task)
  | Json.arr l => jsonToTaskList l
  | _ => none

/-! ## The store operations and the renderer. -/

/-- `renderTasks`'s per-task row: `hidden` is set when the lowercased text
does not contain the lowercased search query, `completed` when the task is
completed. -/
def renderRows (todos : List Task) (searchValue : String) : List Row :=
  let searchQuery := jsToLower searchValue
  todos.map (fun t =>
    { id := t.id, text := t.text,
      hidden := !(jsIncludes (jsToLower t.text) searchQuery),
      completed := t.completed })

/-- The state effect of `saveTasks()`: overwrite the slot with
`JSON.stringify(todos)` (and record the write). -/
def saveTasksSt (st : AppState) : AppState :=
  { st with storage := some (saveTasksString st.todos),
            events := st.events ++ [Eff.setSlot (saveTasksString st.todos)] }

/-- The state effect of `renderTasks()`: rebuild the whole list from
`todos` and the current search field (and record the render). -/
def renderTasksSt (st : AppState) : AppState :=
  { st with view := renderRows st.todos st.searchInput,
            events := st.events ++ [Eff.render] }

/-- `addTask()`: trim the input; on empty text `alert` and return;
otherwise push `{id: Date.now(), text, completed: false}`, save, render,
and clear the input field. -/
def addTask (st : AppState) : AppState :=
  let text := jsTrim st.taskInput
  if text = "" then
    { st with events := st.events ++ [Eff.alert "Task description cannot be empty!"] }
  else
    let st1 := { st with todos := st.todos ++ [⟨st.now, text, false⟩] }
    let st2 := renderTasksSt (saveTasksSt st1)
    { st2 with taskInput := "" }

/-- The array update performed by `toggleTaskCompletion`: flip `completed`
on the first task whose id matches (`findIndex` finds the first match;
index `-1` leaves the array alone). -/
def toggleTodos (id : Nat) : List Task → List Task
  | [] => []
  | t :: ts =>
    if t.id = id then { t with completed := !t.completed } :: ts
    else t :: toggleTodos id ts

/-- `toggleTaskCompletion(id)`: if some task matches, flip it, save and
render; if `findIndex` returns `-1`, do nothing at all. -/
def toggleTaskCompletion (id : Nat) (st : AppState) : AppState :=
  if st.todos.any (fun t => t.id == id) then
    renderTasksSt (saveTasksSt { st with todos := toggleTodos id st.todos })
  else st

/-- `removeTask(id)`: filter out every matching task, then save and render
unconditionally. -/
def removeTask (id : Nat) (st : AppState) : AppState :=
  renderTasksSt (saveTasksSt
    { st with todos := st.todos.filter (fun t => t.id != id) })

/-! ## Helper lemmas. -/

/-- `includes` with the empty pattern always succeeds (JS
`s.includes("")` is `true`). -/
theorem includesL_nil (l : List Char) : includesL [] l = true := by
  induction l with
  | nil => rfl
  | cons c t ih => simp [includesL, startsWithL]

/-- Flipping the first matching task never changes the id sequence. -/
theorem toggleTodos_map_id (id : Nat) (l : List Task) :
    (toggleTodos id l).map Task.id = l.map Task.id := by
  induction l with
  | nil => rfl
  | cons t ts ih =>
    by_cases h : t.id = id <;> simp [toggleTodos, h, ih]

/-- Flipping the first matching task twice is the identity. -/
theorem toggleTodos_toggleTodos (id : Nat) (l : List Task) :
    toggleTodos id (toggleTodos id l) = l := by
  induction l with
  | nil => rfl
  | cons t ts ih =>
    obtain ⟨tid, ttext, tc⟩ := t
    by_cases h : tid = id
    · subst h; simp [toggleTodos]
    · simp [toggleTodos, h, ih]

/-- With pairwise-distinct ids, flipping the first match is a pointwise
update: the matching task gets its flag flipped, every other task is
untouched. -/
theorem toggleTodos_eq_map (id : Nat) (l : List Task)
    (hu : List.Pairwise (fun a b => a.id ≠ b.id) l) :
    toggleTodos id l =
      l.map (fun u => if u.id = id then ⟨u.id, u.text, !u.completed⟩ else u) := by
  induction l with
  | nil => rfl
  | cons t ts ih =>
    rcases List.pairwise_cons.mp hu with ⟨hhead, htail⟩
    by_cases h : t.id = id
    · have hmap : ts.map (fun u => if u.id = id then (⟨u.id, u.text, !u.completed⟩ : Task) else u) = ts := by
        have := List.map_congr_left (l := ts)
          (f := fun u => if u.id = id then (⟨u.id, u.text, !u.completed⟩ : Task) else u)
          (g := fun u => u) ?_
        · simpa using this
        · intro u hu2
          have hne : u.id ≠ id := fun he => (hhead u hu2) (by rw [h, he])
          simp [hne]
      simp [toggleTodos, h, hmap]
    · simp [toggleTodos, h, ih htail]

/-- A list all of whose elements pass the filter is unchanged by it. -/
theorem filter_id_of_no_match (l : List Task) (id : Nat)
    (h : ∀ t ∈ l, t.id ≠ id) : l.filter (fun t => t.id != id) = l := by
  apply List.filter_eq_self.mpr
  intro t ht
  simpa using h t ht

/-- After removal, no task with the removed id remains. -/
theorem filter_removes_id (l : List Task) (id : Nat) :
    id ∉ (l.filter (fun t => t.id != id)).map Task.id := by
  intro hmem
  rcases List.mem_map.mp hmem with ⟨t, ht, hid⟩
  rcases List.mem_filter.mp ht with ⟨_, hne⟩
  simp [bne] at hne
  exact hne hid

/-- With pairwise-distinct ids, removing a present id deletes exactly its
(unique) occurrence and keeps everything else in order. -/
theorem filter_split_of_mem (l : List Task) (t : Task)
    (hu : List.Pairwise (fun a b => a.id ≠ b.id) l) (ht : t ∈ l) :
    ∃ l1 l2, l = l1 ++ t :: l2 ∧
      l.filter (fun u => u.id != t.id) = l1 ++ l2 := by
  induction l with
  | nil => cases ht
  | cons u us ih =>
    rcases List.pairwise_cons.mp hu with ⟨hhead, htail⟩
    rcases List.mem_cons.mp ht with heq | hmem
    · subst heq
      refine ⟨[], us, rfl, ?_⟩
      have hus : us.filter (fun x => x.id != t.id) = us := by
        apply filter_id_of_no_match
        intro x hx
        exact fun he => (hhead x hx) he.symm
      simp [List.filter_cons, hus]
    · rcases ih htail hmem with ⟨l1, l2, hsplit, hfilter⟩
      have hne : u.id ≠ t.id := hhead t hmem
      refine ⟨u :: l1, l2, by simp [hsplit], ?_⟩
      simp [List.filter_cons, hne, hfilter]

/-! ## Round-trip lemmas for the JSON layer. -/

/-- `hexVal` inverts `hexDigit` on nibbles. -/
theorem hexVal_hexDigit : ∀ n, n < 16 → hexVal (hexDigit n) = some n := by decide

/-- The code point of a decimal digit character. -/
theorem digitChar_toNat : ∀ d, d < 10 → (Nat.digitChar d).toNat = 48 + d := by decide

/-- Decimal digit characters satisfy `Char.isDigit`. -/
theorem digitChar_isDigit : ∀ d, d < 10 → (Nat.digitChar d).isDigit = true := by decide

/-- Unescaping inverts `JSON.stringify`'s string escaping: the string body
parser consumes the escaped characters and stops at the closing quote. -/
theorem parseStrBody_escape (s rest : List Char) :
    parseStrBody (escapeList s ++ '"' :: rest) = some (s, rest) := by
  induction s with
  | nil =>
    show parseStrBody ('"' :: rest) = some ([], rest)
    rw [parseStrBody.eq_def]
    simp
  | cons c cs ih =>
    rw [escapeList, List.append_assoc]
    unfold escChar
    split_ifs with h1 h2 h3 h4 h5 h6 h7 h8
    · have hc : c = '"' := by simpa using h1
      subst hc
      rw [List.cons_append, List.cons_append, List.nil_append, parseStrBody.eq_def]
      simp [escDecode, ih]
    · have hc : c = '\\' := by simpa using h2
      subst hc
      rw [List.cons_append, List.cons_append, List.nil_append, parseStrBody.eq_def]
      simp [escDecode, ih]
    · have hc : c = Char.ofNat 8 := by simpa using h3
      subst hc
      rw [List.cons_append, List.cons_append, List.nil_append, parseStrBody.eq_def]
      simp [escDecode, ih]
    · have hc : c = '\t' := by simpa using h4
      subst hc
      rw [List.cons_append, List.cons_append, List.nil_append, parseStrBody.eq_def]
      simp [escDecode, ih]
    · have hc : c = '\n' := by simpa using h5
      subst hc
      rw [List.cons_append, List.cons_append, List.nil_append, parseStrBody.eq_def]
      simp [escDecode, ih]
    · have hc : c = Char.ofNat 12 := by simpa using h6
      subst hc
      rw [List.cons_append, List.cons_append, List.nil_append, parseStrBody.eq_def]
      simp [escDecode, ih]
    · have hc : c = '\r' := by simpa using h7
      subst hc
      rw [List.cons_append, List.cons_append, List.nil_append, parseStrBody.eq_def]
      simp [escDecode, ih]
    · have hdiv : hexVal (hexDigit (c.toNat / 16)) = some (c.toNat / 16) :=
        hexVal_hexDigit _ (by omega)
      have hmod : hexVal (hexDigit (c.toNat % 16)) = some (c.toNat % 16) :=
        hexVal_hexDigit _ (Nat.mod_lt _ (by omega))
      have h0 : hexVal '0' = some 0 := rfl
      have hc : Char.ofNat (c.toNat / 16 * 16 + c.toNat % 16) = c := by
        have harith : c.toNat / 16 * 16 + c.toNat % 16 = c.toNat := by omega
        rw [harith, Char.ofNat_toNat]
      rw [parseStrBody.eq_def]
      simp [h0, hdiv, hmod, ih, hc]
    · rw [List.singleton_append, parseStrBody.eq_def]
      simp only []
      rw [if_neg h1, if_neg h2, if_neg h8, ih]
      rfl

/-- `natDigits` never returns the empty list. -/
theorem natDigits_ne_nil (n : Nat) : natDigits n ≠ [] := by
  rw [natDigits]
  split_ifs <;> simp

/-- Every character `natDigits` emits is a decimal digit. -/
theorem natDigits_digits (n : Nat) : ∀ c ∈ natDigits n, c.isDigit = true := by
  induction n using Nat.strong_induction_on with
  | _ n ih =>
    rw [natDigits]
    split_ifs with h
    · intro c hc
      simp at hc
      subst hc
      exact digitChar_isDigit n h
    · intro c hc
      rcases List.mem_append.mp hc with hm | hm
      · exact ih (n / 10) (Nat.div_lt_self (by omega) (by omega)) c hm
      · simp at hm
        subst hm
        exact digitChar_isDigit (n % 10) (Nat.mod_lt _ (by omega))

/-- Reading back the digits of `n` yields `n`. -/
theorem digitsVal_natDigits (n : Nat) : digitsVal (natDigits n) = n := by
  induction n using Nat.strong_induction_on with
  | _ n ih =>
    rw [natDigits]
    split_ifs with h
    · simp [digitsVal, digitChar_toNat n h]
    · have ihdiv := ih (n / 10) (Nat.div_lt_self (by omega) (by omega))
      have hmod := digitChar_toNat (n % 10) (Nat.mod_lt _ (by omega))
      simp only [digitsVal, List.foldl_append, List.foldl_cons, List.foldl_nil] at *
      rw [ihdiv, hmod]
      omega

/-- A list of digits followed by a non-digit (or nothing) splits exactly
at the boundary under `takeWhile`/`dropWhile`. -/
theorem takeWhile_digits_split (l1 l2 : List Char)
    (h1 : ∀ c ∈ l1, c.isDigit = true)
    (h2 : ∀ c, l2.head? = some c → c.isDigit = false) :
    (l1 ++ l2).takeWhile Char.isDigit = l1 ∧
    (l1 ++ l2).dropWhile Char.isDigit = l2 := by
  induction l1 with
  | nil =>
    simp only [List.nil_append]
    cases l2 with
    | nil => simp
    | cons c t =>
      have hc := h2 c rfl
      simp [List.takeWhile_cons, List.dropWhile_cons, hc]
  | cons c t ih =>
    have hc := h1 c (by simp)
    have hrest := ih (fun x hx => h1 x (by simp [hx]))
    simp [List.takeWhile_cons, List.dropWhile_cons, hc, hrest.1, hrest.2]

/-- `parseNum` inverts `natDigits` when the remainder does not begin with
another digit. -/
theorem parseNum_natDigits (n : Nat) (rest : List Char)
    (hrest : ∀ c, rest.head? = some c → c.isDigit = false) :
    parseNum (natDigits n ++ rest) = some (n, rest) := by
  rcases takeWhile_digits_split (natDigits n) rest (natDigits_digits n) hrest
    with ⟨htake, hdrop⟩
  have hne : (natDigits n).isEmpty = false := by
    cases hdig : natDigits n with
    | nil => exact absurd hdig (natDigits_ne_nil n)
    | cons a b => simp
  simp [parseNum, htake, hdrop, hne, digitsVal_natDigits]

/-- A single JSON numeral at the head of the input. -/
theorem parseValue_natDigits (n fuel : Nat) (rest : List Char)
    (hfuel : 0 < fuel)
    (hrest : ∀ c, rest.head? = some c → c.isDigit = false) :
    parseValue fuel (natDigits n ++ rest) = some (Json.num n, rest) := by
  obtain ⟨f, rfl⟩ : ∃ f, fuel = f + 1 := ⟨fuel - 1, by omega⟩
  cases hdig : natDigits n with
  | nil => exact absurd hdig (natDigits_ne_nil n)
  | cons d ds =>
    have hd : d.isDigit = true := natDigits_digits n d (by rw [hdig]; simp)
    have hpn : parseNum (d :: (ds ++ rest)) = some (n, rest) := by
      rw [← List.cons_append, ← hdig]
      exact parseNum_natDigits n rest hrest
    rw [List.cons_append, parseValue.eq_def]
    simp [hd, hpn]

/-- A single JSON string literal at the head of the input. -/
theorem parseValue_printStr (s : String) (fuel : Nat) (rest : List Char)
    (hfuel : 0 < fuel) :
    parseValue fuel (printStrL s.data ++ rest) = some (Json.str s, rest) := by
  obtain ⟨f, rfl⟩ : ∃ f, fuel = f + 1 := ⟨fuel - 1, by omega⟩
  have hbody := parseStrBody_escape s.data rest
  simp only [printStrL, List.cons_append, List.append_assoc, List.singleton_append]
  rw [parseValue.eq_def]
  simp [hbody]

/-- A single JSON boolean at the head of the input. -/
theorem parseValue_printBool (b : Bool) (fuel : Nat) (rest : List Char)
    (hfuel : 0 < fuel) :
    parseValue fuel (printBool b ++ rest) = some (Json.bool b, rest) := by
  obtain ⟨f, rfl⟩ : ∃ f, fuel = f + 1 := ⟨fuel - 1, by omega⟩
  cases b <;> (rw [parseValue.eq_def]; simp [printBool])

/-- The object-member loop at a closing brace. -/
theorem parseMoreFields_close (fuel : Nat) (rest : List Char) (hfuel : 0 < fuel) :
    parseMoreFields fuel ('\x7d' :: rest) = some ([], rest) := by
  obtain ⟨f, rfl⟩ : ∃ f, fuel = f + 1 := ⟨fuel - 1, by omega⟩
  rw [parseMoreFields.eq_def]
  simp

/-- The object-member loop at a comma: one more key/value pair, then the
rest of the members. -/
theorem parseMoreFields_cons (fuel : Nat) (kchars : List Char) (vJ : Json)
    (X r5 rest : List Char) (L : List (String × Json))
    (hval : parseValue fuel X = some (vJ, r5))
    (hmore : parseMoreFields fuel r5 = some (L, rest)) :
    parseMoreFields (fuel + 1)
      (',' :: '"' :: (escapeList kchars ++ '"' :: ':' :: X)) =
      some ((String.mk kchars, vJ) :: L, rest) := by
  have hkey : parseStrBody (escapeList kchars ++ '"' :: (':' :: X)) =
      some (kchars, ':' :: X) := parseStrBody_escape kchars (':' :: X)
  rw [parseMoreFields.eq_def]
  simp [hkey, hval, hmore]

/-- The parser reads back one stringified task object. -/
theorem parseValue_printTask (t : Task) (fuel : Nat) (rest : List Char)
    (hfuel : (printTask t ++ rest).length < fuel) :
    parseValue fuel (printTask t ++ rest) = some (taskToJson t, rest) := by
  have hlen : 5 ≤ (printTask t ++ rest).length := by
    simp [printTask, printStrL, List.length_append]
    omega
  obtain ⟨g, rfl⟩ : ∃ g, fuel = g + 1 + 1 + 1 + 1 + 1 := ⟨fuel - 5, by omega⟩
  have hv3 : parseValue (g + 1 + 1) (printBool t.completed ++ ('\x7d' :: rest)) =
      some (Json.bool t.completed, '\x7d' :: rest) :=
    parseValue_printBool t.completed (g + 1 + 1) ('\x7d' :: rest) (by omega)
  have hm3 : parseMoreFields (g + 1 + 1) ('\x7d' :: rest) = some ([], rest) :=
    parseMoreFields_close (g + 1 + 1) rest (by omega)
  have hm2 : parseMoreFields (g + 1 + 1 + 1)
      (',' :: '"' :: (escapeList "completed".data ++ '"' :: ':' ::
        (printBool t.completed ++ ('\x7d' :: rest)))) =
      some ([("completed", Json.bool t.completed)], rest) :=
    parseMoreFields_cons (g + 1 + 1) "completed".data (Json.bool t.completed)
      (printBool t.completed ++ ('\x7d' :: rest)) ('\x7d' :: rest) rest [] hv3 hm3
  have hv2 : parseValue (g + 1 + 1 + 1)
      ('"' :: (escapeList t.text.data ++ '"' ::
        (',' :: '"' :: (escapeList "completed".data ++ '"' :: ':' ::
          (printBool t.completed ++ ('\x7d' :: rest)))))) =
      some (Json.str t.text,
        ',' :: '"' :: (escapeList "completed".data ++ '"' :: ':' ::
          (printBool t.completed ++ ('\x7d' :: rest)))) := by
    have := parseValue_printStr t.text (g + 1 + 1 + 1)
      (',' :: '"' :: (escapeList "completed".data ++ '"' :: ':' ::
        (printBool t.completed ++ ('\x7d' :: rest)))) (by omega)
    simpa only [printStrL, List.cons_append, List.append_assoc,
      List.singleton_append] using this
  have hm1 : parseMoreFields (g + 1 + 1 + 1 + 1)
      (',' :: '"' :: (escapeList "text".data ++ '"' :: ':' ::
        ('"' :: (escapeList t.text.data ++ '"' ::
          (',' :: '"' :: (escapeList "completed".data ++ '"' :: ':' ::
            (printBool t.completed ++ ('\x7d' :: rest)))))))) =
      some ([("text", Json.str t.text), ("completed", Json.bool t.completed)], rest) :=
    parseMoreFields_cons (g + 1 + 1 + 1) "text".data (Json.str t.text) _ _ rest _ hv2 hm2
  have hv1 : parseValue (g + 1 + 1 + 1 + 1)
      (natDigits t.id ++
        (',' :: '"' :: (escapeList "text".data ++ '"' :: ':' ::
          ('"' :: (escapeList t.text.data ++ '"' ::
            (',' :: '"' :: (escapeList "completed".data ++ '"' :: ':' ::
              (printBool t.completed ++ ('\x7d' :: rest))))))))) =
      some (Json.num t.id,
        ',' :: '"' :: (escapeList "text".data ++ '"' :: ':' ::
          ('"' :: (escapeList t.text.data ++ '"' ::
            (',' :: '"' :: (escapeList "completed".data ++ '"' :: ':' ::
              (printBool t.completed ++ ('\x7d' :: rest)))))))) :=
    parseValue_natDigits t.id (g + 1 + 1 + 1 + 1) _ (by omega)
      (fun c hc => (Option.some.inj hc) ▸ rfl)
  have hkey : parseStrBody (escapeList "id".data ++ '"' ::
      (':' :: (natDigits t.id ++
        (',' :: '"' :: (escapeList "text".data ++ '"' :: ':' ::
          ('"' :: (escapeList t.text.data ++ '"' ::
            (',' :: '"' :: (escapeList "completed".data ++ '"' :: ':' ::
              (printBool t.completed ++ ('\x7d' :: rest))))))))))) =
      some ("id".data,
        ':' :: (natDigits t.id ++
          (',' :: '"' :: (escapeList "text".data ++ '"' :: ':' ::
            ('"' :: (escapeList t.text.data ++ '"' ::
              (',' :: '"' :: (escapeList "completed".data ++ '"' :: ':' ::
                (printBool t.completed ++ ('\x7d' :: rest)))))))))) :=
    parseStrBody_escape "id".data _
  simp only [printTask, printStrL, List.cons_append, List.append_assoc,
    List.singleton_append]
  rw [parseValue.eq_def]
  simp [hkey, hv1, hm1, taskToJson]

/-- The array-element loop reads back the stringified tail of a task
array. -/
theorem parseMoreElems_printMore (ts : List Task) (fuel : Nat) (rest : List Char)
    (hfuel : (printMoreTasks ts ++ rest).length < fuel) :
    parseMoreElems fuel (printMoreTasks ts ++ rest) =
      some (ts.map taskToJson, rest) := by
  induction ts generalizing fuel rest with
  | nil =>
    obtain ⟨f, rfl⟩ : ∃ f, fuel = f + 1 := ⟨fuel - 1, by omega⟩
    rw [printMoreTasks]
    simp only [List.cons_append, List.nil_append]
    rw [parseMoreElems.eq_def]
    simp
  | cons t ts ih =>
    obtain ⟨f, rfl⟩ : ∃ f, fuel = f + 1 := ⟨fuel - 1, by omega⟩
    have hlen1 : (printTask t ++ (printMoreTasks ts ++ rest)).length < f := by
      simp only [printMoreTasks, List.cons_append, List.length_cons,
        List.length_append] at hfuel ⊢
      omega
    have hval := parseValue_printTask t f (printMoreTasks ts ++ rest) hlen1
    have hmore := ih f rest (by
      simp only [List.length_append] at hfuel ⊢
      simp only [printMoreTasks, List.cons_append, List.length_cons,
        List.length_append] at hfuel
      omega)
    rw [printMoreTasks]
    simp only [List.cons_append, List.append_assoc]
    rw [parseMoreElems.eq_def]
    simp [hval, hmore]

/-- The parser reads back a whole stringified task array. -/
theorem parseValue_printTasks (C : List Task) (fuel : Nat) (rest : List Char)
    (hfuel : (printTasks C ++ rest).length < fuel) :
    parseValue fuel (printTasks C ++ rest) = some (tasksToJson C, rest) := by
  cases C with
  | nil =>
    obtain ⟨f, rfl⟩ : ∃ f, fuel = f + 1 := ⟨fuel - 1, by omega⟩
    rw [printTasks]
    simp only [List.cons_append, List.nil_append]
    rw [parseValue.eq_def]
    simp [tasksToJson]
  | cons t ts =>
    obtain ⟨f, rfl⟩ : ∃ f, fuel = f + 1 := ⟨fuel - 1, by omega⟩
    have hlen1 : (printTask t ++ (printMoreTasks ts ++ rest)).length < f := by
      simp only [printTasks, List.cons_append, List.length_cons,
        List.length_append] at hfuel ⊢
      omega
    have hval := parseValue_printTask t f (printMoreTasks ts ++ rest) hlen1
    have hmore : parseMoreElems f (printMoreTasks ts ++ rest) =
        some (ts.map taskToJson, rest) :=
      parseMoreElems_printMore ts f rest (by
        simp only [printTasks, List.cons_append, List.length_cons,
          List.length_append] at hfuel
        simp only [List.length_append]
        omega)
    have hval2 : parseValue f (printTask t ++ (printMoreTasks ts ++ rest)) =
        some (taskToJson t, printMoreTasks ts ++ rest) := hval
    rw [printTasks]
    simp only [printTask, printStrL, List.cons_append, List.append_assoc,
      List.singleton_append, List.nil_append] at hval2 ⊢
    rw [parseValue.eq_def]
    simp [hval2, hmore, tasksToJson]

/-- `JSON.parse ∘ JSON.stringify` is the identity on task arrays. -/
theorem parseJson_printTasks (C : List Task) :
    parseJson (printTasks C) = some (tasksToJson C) := by
  have h := parseValue_printTasks C ((printTasks C).length + 1) []
    (by simp)
  rw [List.append_nil] at h
  rw [parseJson, h]

/-- The typed reading of an encoded task is that task. -/
theorem jsonToTask_taskToJson (t : Task) : jsonToTask (taskToJson t) = some t := rfl

/-- The typed reading of an encoded task array is the original list. -/
theorem jsonToTasks_tasksToJson (ts : List Task) :
    jsonToTasks (tasksToJson ts) = some ts := by
  show jsonToTaskList (ts.map taskToJson) = some ts
  induction ts with
  | nil => rfl
  | cons t ts ih => simp [jsonToTaskList, jsonToTask_taskToJson, ih]

/-- A stringified task array is never the empty string. -/
theorem printTasks_ne_nil (C : List Task) : (printTasks C).isEmpty = false := by
  cases C <;> rfl

/-! ## Claim theorems. -/

/-- C2: for every input whose trimmed form is non-empty, `addTask` appends
exactly one task — text the trimmed input, `completed = false`, id the
current clock value — to the end of `todos`, so the size grows by exactly
one and every previously present task is unchanged (still the prefix). -/
theorem addTask_appends (st : AppState) (h : jsTrim st.taskInput ≠ "") :
    (addTask st).todos =
      st.todos ++ [⟨st.now, jsTrim st.taskInput, false⟩] ∧
    (addTask st).todos.length = st.todos.length + 1 ∧
    (addTask st).todos.take st.todos.length = st.todos := by
  refine ⟨?_, ?_, ?_⟩ <;>
    simp [addTask, h, renderTasksSt, saveTasksSt, List.take_left]

theorem addTask_appends_witness :
    jsTrim " buy milk " ≠ "" ∧
    ((addTask ⟨[⟨1, "a", true⟩], " buy milk ", "", none, [], 7, []⟩).todos =
      [⟨1, "a", true⟩] ++ [⟨7, jsTrim " buy milk ", false⟩] ∧
    (addTask ⟨[⟨1, "a", true⟩], " buy milk ", "", none, [], 7, []⟩).todos.length =
      [(⟨1, "a", true⟩ : Task)].length + 1 ∧
    (addTask ⟨[⟨1, "a", true⟩], " buy milk ", "", none, [], 7, []⟩).todos.take
      [(⟨1, "a", true⟩ : Task)].length = [⟨1, "a", true⟩]) :=
  ⟨by decide, addTask_appends ⟨[⟨1, "a", true⟩], " buy milk ", "", none, [], 7, []⟩ (by decide)⟩

/-- C3: for every input whose trimmed form is empty, `addTask` raises the
blocking `alert` notification and does nothing else: `todos`, the input
field and the storage slot are all left untouched (the whole state changes
only by the recorded alert). -/
theorem addTask_empty_input (st : AppState) (h : jsTrim st.taskInput = "") :
    addTask st =
      { st with events := st.events ++ [Eff.alert "Task description cannot be empty!"] } ∧
    (addTask st).todos = st.todos ∧
    (addTask st).taskInput = st.taskInput ∧
    (addTask st).storage = st.storage := by
  refine ⟨?_, ?_, ?_, ?_⟩ <;> simp [addTask, h]

theorem addTask_empty_input_witness :
    jsTrim "  " = "" ∧
    addTask ⟨[⟨1, "a", true⟩], "  ", "", none, [], 7, []⟩ =
      { todos := [⟨1, "a", true⟩], taskInput := "  ", searchInput := "",
        storage := none, view := [], now := 7,
        events := [Eff.alert "Task description cannot be empty!"] } :=
  ⟨by decide,
    by simpa using
      (addTask_empty_input ⟨[⟨1, "a", true⟩], "  ", "", none, [], 7, []⟩ (by decide)).1⟩

/-- C4: with pairwise-distinct ids, toggling a present task's id flips
exactly that task's `completed` flag (id and text kept, all other tasks
untouched, order kept), and toggling twice restores the collection. -/
theorem toggle_flips_exactly (todos : List Task) (t : Task)
    (hu : List.Pairwise (fun a b => a.id ≠ b.id) todos) (ht : t ∈ todos) :
    toggleTodos t.id todos =
      todos.map (fun u => if u.id = t.id then ⟨u.id, u.text, !u.completed⟩ else u) ∧
    toggleTodos t.id (toggleTodos t.id todos) = todos :=
  ⟨toggleTodos_eq_map t.id todos hu, toggleTodos_toggleTodos t.id todos⟩

theorem toggle_flips_exactly_witness :
    List.Pairwise (fun a b : Task => a.id ≠ b.id) [⟨1, "a", false⟩, ⟨2, "b", true⟩] ∧
    (⟨2, "b", true⟩ : Task) ∈ [(⟨1, "a", false⟩ : Task), ⟨2, "b", true⟩] ∧
    (toggleTodos 2 [⟨1, "a", false⟩, ⟨2, "b", true⟩] =
      [(⟨1, "a", false⟩ : Task), ⟨2, "b", true⟩].map
        (fun u => if u.id = 2 then ⟨u.id, u.text, !u.completed⟩ else u) ∧
    toggleTodos 2 (toggleTodos 2 [⟨1, "a", false⟩, ⟨2, "b", true⟩]) =
      [⟨1, "a", false⟩, ⟨2, "b", true⟩]) :=
  ⟨by decide, by decide,
    toggle_flips_exactly [⟨1, "a", false⟩, ⟨2, "b", true⟩] ⟨2, "b", true⟩
      (by decide) (by decide)⟩

/-- C5: `removeTask` of an absent id leaves the collection unchanged; of a
present id (under unique ids) it deletes exactly that task — size down by
one, no task with the id remains, and the rest keep their values and
relative order. -/
theorem removeTask_collection_spec (st : AppState) (id : Nat) :
    ((∀ t ∈ st.todos, t.id ≠ id) → (removeTask id st).todos = st.todos) ∧
    (∀ t ∈ st.todos, t.id = id →
      List.Pairwise (fun a b => a.id ≠ b.id) st.todos →
      ∃ l1 l2, st.todos = l1 ++ t :: l2 ∧
        (removeTask id st).todos = l1 ++ l2 ∧
        (removeTask id st).todos.length + 1 = st.todos.length ∧
        id ∉ (removeTask id st).todos.map Task.id) := by
  have htodos : (removeTask id st).todos = st.todos.filter (fun t => t.id != id) := rfl
  constructor
  · intro h
    rw [htodos]
    exact filter_id_of_no_match st.todos id h
  · intro t ht hid hu
    subst hid
    rcases filter_split_of_mem st.todos t hu ht with ⟨l1, l2, hsplit, hfilter⟩
    refine ⟨l1, l2, hsplit, by rw [htodos, hfilter], ?_, ?_⟩
    · rw [htodos, hfilter, hsplit]; simp; omega
    · rw [htodos]; exact filter_removes_id st.todos t.id

theorem removeTask_collection_spec_witness :
    (removeTask 9 ⟨[⟨1, "a", false⟩, ⟨2, "b", true⟩], "", "", none, [], 7, []⟩).todos =
      [⟨1, "a", false⟩, ⟨2, "b", true⟩] ∧
    (∃ l1 l2, [(⟨1, "a", false⟩ : Task), ⟨2, "b", true⟩] = l1 ++ ⟨2, "b", true⟩ :: l2 ∧
      (removeTask 2 ⟨[⟨1, "a", false⟩, ⟨2, "b", true⟩], "", "", none, [], 7, []⟩).todos = l1 ++ l2 ∧
      (removeTask 2 ⟨[⟨1, "a", false⟩, ⟨2, "b", true⟩], "", "", none, [], 7, []⟩).todos.length + 1 =
        [(⟨1, "a", false⟩ : Task), ⟨2, "b", true⟩].length ∧
      2 ∉ (removeTask 2 ⟨[⟨1, "a", false⟩, ⟨2, "b", true⟩], "", "", none, [], 7, []⟩).todos.map Task.id) :=
  ⟨(removeTask_collection_spec ⟨[⟨1, "a", false⟩, ⟨2, "b", true⟩], "", "", none, [], 7, []⟩ 9).1
      (by decide),
    (removeTask_collection_spec ⟨[⟨1, "a", false⟩, ⟨2, "b", true⟩], "", "", none, [], 7, []⟩ 2).2
      ⟨2, "b", true⟩ (by decide) (by decide) (by decide)⟩

/-- C7: rendering marks as hidden exactly the tasks whose lowercased text
does not contain the lowercased query as a substring, and the empty query
hides nothing. -/
theorem renderTasks_search_filter (todos : List Task) (q : String) :
    renderRows todos q =
      todos.map (fun t =>
        { id := t.id, text := t.text,
          hidden := !(jsIncludes (jsToLower t.text) (jsToLower q)),
          completed := t.completed }) ∧
    renderRows todos "" =
      todos.map (fun t =>
        { id := t.id, text := t.text, hidden := false, completed := t.completed }) := by
  constructor
  · rfl
  · simp only [renderRows, jsIncludes, jsToLower]
    congr 1
    funext t
    simp [includesL_nil]

/-- C8: the rendered output has exactly one row per task — hidden rows are
present, so the row count equals the collection size for every query — and
on each row the `completed` marker equals the task's flag regardless of the
query (hence regardless of the hidden marker). -/
theorem renderTasks_row_structure (todos : List Task) (q : String) (i : Nat)
    (hi : i < todos.length) :
    (renderRows todos q).length = todos.length ∧
    ((renderRows todos q).get ⟨i, by simpa [renderRows] using hi⟩).completed =
      (todos.get ⟨i, hi⟩).completed ∧
    ((renderRows todos q).get ⟨i, by simpa [renderRows] using hi⟩).id =
      (todos.get ⟨i, hi⟩).id ∧
    ((renderRows todos q).get ⟨i, by simpa [renderRows] using hi⟩).text =
      (todos.get ⟨i, hi⟩).text := by
  refine ⟨by simp [renderRows], ?_, ?_, ?_⟩ <;> simp [renderRows]

theorem renderTasks_row_structure_witness :
    (1 : Nat) < [(⟨1, "a", false⟩ : Task), ⟨2, "b", true⟩].length ∧
    ((renderRows [⟨1, "a", false⟩, ⟨2, "b", true⟩] "zzz").length =
      [(⟨1, "a", false⟩ : Task), ⟨2, "b", true⟩].length ∧
    ((renderRows [⟨1, "a", false⟩, ⟨2, "b", true⟩] "zzz").get ⟨1, by decide⟩).completed =
      ([(⟨1, "a", false⟩ : Task), ⟨2, "b", true⟩].get ⟨1, by decide⟩).completed ∧
    ((renderRows [⟨1, "a", false⟩, ⟨2, "b", true⟩] "zzz").get ⟨1, by decide⟩).id =
      ([(⟨1, "a", false⟩ : Task), ⟨2, "b", true⟩].get ⟨1, by decide⟩).id ∧
    ((renderRows [⟨1, "a", false⟩, ⟨2, "b", true⟩] "zzz").get ⟨1, by decide⟩).text =
      ([(⟨1, "a", false⟩ : Task), ⟨2, "b", true⟩].get ⟨1, by decide⟩).text) := by
  refine ⟨by decide, ?_⟩
  simpa using renderTasks_row_structure [⟨1, "a", false⟩, ⟨2, "b", true⟩] "zzz" 1 (by decide)

/-- C9 (amended): uniqueness of ids is preserved unconditionally by toggle
and remove, and by a non-rejected add exactly when the clock value is not
already one of the stored ids; two adds in the same millisecond violate it
(see the counterexample). -/
theorem unique_ids_preserved (st : AppState) (id : Nat)
    (hu : List.Pairwise (fun a b => a.id ≠ b.id) st.todos) :
    List.Pairwise (fun a b => a.id ≠ b.id) (toggleTaskCompletion id st).todos ∧
    List.Pairwise (fun a b => a.id ≠ b.id) (removeTask id st).todos ∧
    (st.now ∉ st.todos.map Task.id →
      List.Pairwise (fun a b => a.id ≠ b.id) (addTask st).todos) := by
  refine ⟨?_, ?_, ?_⟩
  · by_cases h : st.todos.any (fun t => t.id == id)
    · have : (toggleTaskCompletion id st).todos = toggleTodos id st.todos := by
        simp [toggleTaskCompletion, h, renderTasksSt, saveTasksSt]
      rw [this]
      have hmap := toggleTodos_map_id id st.todos
      rw [← List.pairwise_map (f := Task.id) (R := fun a b => a ≠ b)] at hu ⊢
      rwa [hmap]
    · have : (toggleTaskCompletion id st).todos = st.todos := by
        simp [toggleTaskCompletion, h]
      rwa [this]
  · exact List.Pairwise.sublist (List.filter_sublist st.todos) hu
  · intro hnow
    by_cases h : jsTrim st.taskInput = ""
    · simpa [addTask, h] using hu
    · have : (addTask st).todos = st.todos ++ [⟨st.now, jsTrim st.taskInput, false⟩] := by
        simp [addTask, h, renderTasksSt, saveTasksSt]
      rw [this, List.pairwise_append]
      refine ⟨hu, by simp, ?_⟩
      intro a ha b hb
      simp at hb
      rw [hb]
      intro he
      apply hnow
      have h2 : a.id = st.now := he
      rw [← h2]
      exact List.mem_map_of_mem Task.id ha

theorem unique_ids_preserved_witness :
    List.Pairwise (fun a b : Task => a.id ≠ b.id) [⟨1, "a", false⟩, ⟨2, "b", true⟩] ∧
    (7 : Nat) ∉ [(⟨1, "a", false⟩ : Task), ⟨2, "b", true⟩].map Task.id ∧
    List.Pairwise (fun a b => a.id ≠ b.id)
      (toggleTaskCompletion 2 ⟨[⟨1, "a", false⟩, ⟨2, "b", true⟩], "x", "", none, [], 7, []⟩).todos ∧
    List.Pairwise (fun a b => a.id ≠ b.id)
      (removeTask 2 ⟨[⟨1, "a", false⟩, ⟨2, "b", true⟩], "x", "", none, [], 7, []⟩).todos ∧
    List.Pairwise (fun a b => a.id ≠ b.id)
      (addTask ⟨[⟨1, "a", false⟩, ⟨2, "b", true⟩], "x", "", none, [], 7, []⟩).todos :=
  ⟨by decide, by decide,
    (unique_ids_preserved ⟨[⟨1, "a", false⟩, ⟨2, "b", true⟩], "x", "", none, [], 7, []⟩ 2
      (by decide)).1,
    (unique_ids_preserved ⟨[⟨1, "a", false⟩, ⟨2, "b", true⟩], "x", "", none, [], 7, []⟩ 2
      (by decide)).2.1,
    (unique_ids_preserved ⟨[⟨1, "a", false⟩, ⟨2, "b", true⟩], "x", "", none, [], 7, []⟩ 2
      (by decide)).2.2 (by decide)⟩

/-- C9 (counterexample): starting from the empty collection, two
successful adds with the same `Date.now()` value — two adds within one
millisecond — produce two tasks with the same id, so the claim that every
successful add draws a fresh id distinct from all stored ids fails. -/
theorem addTask_duplicate_id_counterexample :
    ¬ List.Pairwise (fun a b : Task => a.id ≠ b.id)
      (addTask { addTask ⟨[], "a", "", none, [], 5, []⟩ with taskInput := "b" }).todos := by
  decide

/-- C10: for an absent id, `toggleTaskCompletion` is a complete no-op — no
storage write, no render, the state is untouched — while `removeTask`
still overwrites the slot with the unchanged collection's serialization
and re-renders the view. -/
theorem absent_id_toggle_vs_remove (st : AppState) (id : Nat)
    (h : ∀ t ∈ st.todos, t.id ≠ id) :
    toggleTaskCompletion id st = st ∧
    (removeTask id st).todos = st.todos ∧
    (removeTask id st).storage = some (saveTasksString st.todos) ∧
    (removeTask id st).view = renderRows st.todos st.searchInput ∧
    (removeTask id st).events =
      st.events ++ [Eff.setSlot (saveTasksString st.todos), Eff.render] := by
  have hany : st.todos.any (fun t => t.id == id) = false := by
    rw [List.any_eq_false]
    intro t ht
    simpa using h t ht
  have hfilter : st.todos.filter (fun t => t.id != id) = st.todos :=
    filter_id_of_no_match st.todos id h
  refine ⟨by simp [toggleTaskCompletion, hany], ?_, ?_, ?_, ?_⟩ <;>
    simp [removeTask, saveTasksSt, renderTasksSt, hfilter]

theorem absent_id_toggle_vs_remove_witness :
    (∀ t ∈ [(⟨5, "a", false⟩ : Task)], t.id ≠ 9) ∧
    (toggleTaskCompletion 9 ⟨[⟨5, "a", false⟩], "", "", none, [], 7, []⟩ =
      ⟨[⟨5, "a", false⟩], "", "", none, [], 7, []⟩ ∧
    (removeTask 9 ⟨[⟨5, "a", false⟩], "", "", none, [], 7, []⟩).todos = [⟨5, "a", false⟩] ∧
    (removeTask 9 ⟨[⟨5, "a", false⟩], "", "", none, [], 7, []⟩).storage =
      some (saveTasksString [⟨5, "a", false⟩]) ∧
    (removeTask 9 ⟨[⟨5, "a", false⟩], "", "", none, [], 7, []⟩).view =
      renderRows [⟨5, "a", false⟩] "" ∧
    (removeTask 9 ⟨[⟨5, "a", false⟩], "", "", none, [], 7, []⟩).events =
      [] ++ [Eff.setSlot (saveTasksString [⟨5, "a", false⟩]), Eff.render]) :=
  ⟨by decide,
    absent_id_toggle_vs_remove ⟨[⟨5, "a", false⟩], "", "", none, [], 7, []⟩ 9 (by decide)⟩

/-- Concrete evaluation: a malformed slot value fails to parse. -/
theorem parseJson_oops : parseJson ['o', 'o', 'p', 's'] = none := by
  simp [parseJson, parseValue.eq_def]

/-- Concrete evaluation: the slot value `5` parses to a bare numeral. -/
theorem parseJson_five : parseJson ['5'] = some (Json.num 5) := by
  simp [parseJson, parseValue.eq_def, parseNum, digitsVal]

/-- Concrete evaluation: another malformed slot value fails to parse. -/
theorem parseJson_x : parseJson ['x'] = none := by
  simp [parseJson, parseValue.eq_def]

/-- Concrete evaluation: the slot value `null` parses to the null value. -/
theorem parseJson_null : parseJson ['n', 'u', 'l', 'l'] = some Json.null := by
  simp [parseJson, parseValue.eq_def]

/-- C1 (counterexample): a malformed slot value makes `loadTasks` throw —
`JSON.parse` raises and nothing catches it, so the caller does not get an
empty collection — and a well-formed but structurally incompatible value
(`"5"`) is handed back verbatim rather than replaced by the empty
collection. -/
theorem loadTasks_corrupt_counterexample :
    loadTasks (some "oops".data) = Except.error () ∧
    loadTasks (some "5".data) = Except.ok (Json.num 5) := by
  constructor
  · simp [loadTasks, parseJson_oops]
  · simp [loadTasks, parseJson_five]

/-- C1 (amended): `loadTasks` returns the empty collection when the slot
is absent or holds the empty string (both falsy); when the slot holds a
non-empty string that does not parse, the `JSON.parse` exception escapes
to the caller; and any well-formed value — even one structurally
incompatible with a task array — is assigned to `todos` verbatim. -/
theorem loadTasks_amended (s : List Char) :
    loadTasks none = Except.ok (Json.arr []) ∧
    loadTasks (some []) = Except.ok (Json.arr []) ∧
    (s ≠ [] → parseJson s = none → loadTasks (some s) = Except.error ()) ∧
    (∀ j, s ≠ [] → parseJson s = some j → loadTasks (some s) = Except.ok j) := by
  have hempty : ∀ l : List Char, l ≠ [] → l.isEmpty = false := by
    intro l hl
    cases l with
    | nil => exact absurd rfl hl
    | cons a b => rfl
  refine ⟨rfl, rfl, ?_, ?_⟩
  · intro hne hp
    simp [loadTasks, hempty s hne, hp]
  · intro j hne hp
    simp [loadTasks, hempty s hne, hp]

theorem loadTasks_amended_witness :
    loadTasks none = Except.ok (Json.arr []) ∧
    loadTasks (some []) = Except.ok (Json.arr []) ∧
    loadTasks (some "x".data) = Except.error () ∧
    loadTasks (some "null".data) = Except.ok Json.null :=
  ⟨(loadTasks_amended []).1, (loadTasks_amended []).2.1,
    (loadTasks_amended "x".data).2.2.1 (by simp) parseJson_x,
    (loadTasks_amended "null".data).2.2.2 Json.null (by simp) parseJson_null⟩

/-- C6: persist-then-load round-trip.  Saving any collection `C` stores
`JSON.stringify(C)`; loading that slot succeeds (no exception) and parses
back exactly the encoded array, whose typed reading is `C` itself — the
same ids, texts, completed flags, in the same order. -/
theorem save_load_roundtrip (C : List Task) :
    loadTasks (some (saveTasksString C)) = Except.ok (tasksToJson C) ∧
    jsonToTasks (tasksToJson C) = some C := by
  constructor
  · simp [loadTasks, saveTasksString, printTasks_ne_nil, parseJson_printTasks]
  · exact jsonToTasks_tasksToJson C

end TodoApp
